import Mathlib

/-!
Verification of the gitingest ingestion pipeline against its specification.

This file gives a shallow embedding, in Lean 4, of the parts of the
gitingest sources that the specification claims talk about:

* `src/gitingest/schemas/filesystem.py` — the filesystem node model, the
  separator constant, `content_string`, `sort_children`, `get_content`,
  `gather_contents`;
* `src/gitingest/output_formatter.py` — `format_node_with_context_limit`,
  `_optimize_content_with_knapsack`, `_collect_file_items`,
  `_get_file_type_multiplier`, `_estimate_content_quality`, `_count_tokens`,
  `createSummaryHeader`, `_create_tree_structure`;
* `src/gitingest/utils/git_utils.py` — `check_repo_exists` (status
  dispatch), `_pick_commit_sha`, the outcome of `_resolve_ref_to_sha`;
* `src/gitingest/query_parser.py` — `_is_valid_git_commit_hash`,
  `_normalize_pattern`, `_parse_patterns`, `_is_valid_pattern`,
  `_get_user_and_repo_from_path` and the slug/url construction of
  `_parse_repo_source`;
* `src/gitingest/utils/token_utils.py` — the fallback estimate of
  `count_tokens_optimized`.

Python strings are modelled as Lean `String`s manipulated through their
underlying character lists (the position-based core `String` functions do
not reduce in the kernel, so list-level replicas are used and kept next to
each other below).  Python `int` is modelled as `Int`/`Nat` (no overflow in
CPython), and Python `float` values that only feed comparisons are modelled
as exact rationals `ℚ`; this idealisation is noted at each use site.
External effects (the tiktoken encoder, HTTP, git subprocesses) enter the
model as explicit function arguments or as the already-produced data the
code consumes (HTTP status codes, `ls-remote` output lines).
-/

/-! ## List-level string toolkit

Replicas of the Python string primitives used by the embedded code.  They
work on `List Char` / `String.data` so that every definition in this file
evaluates by kernel reduction (`decide`, `rfl`).
-/

/-- Character comparison by code point, as Python compares characters. -/
def charLtB (a b : Char) : Bool :=
  Nat.blt a.toNat b.toNat

/-- Lexicographic order on character lists: Python's string `<`. -/
def charListLtB : List Char → List Char → Bool
  | [], [] => false
  | [], _ :: _ => true
  | _ :: _, [] => false
  | a :: as, b :: bs =>
    if charLtB a b then true
    else if charLtB b a then false
    else charListLtB as bs

/-- Python string `<=` (total code-point lexicographic order). -/
def strLeB (a b : String) : Bool :=
  charListLtB a.data b.data || a == b

/-- Lowercase a string character by character.

Models Python's `str.lower` on the ASCII range (`A`–`Z` map to `a`–`z`,
all other characters in that range are fixed).  The full Unicode case map
of CPython is outside the model; every theorem below applies it only to
strings whose uppercase letters are ASCII. -/
def pyLower (s : String) : String :=
  ⟨s.data.map Char.toLower⟩

/-- Whitespace per Python's default `str.strip` / `str.split`, restricted
to the ASCII whitespace characters that actually occur in the modelled
inputs (space, tab, line feed, carriage return). -/
def pyWhitespace (c : Char) : Bool :=
  c == ' ' || c == '\t' || c == '\n' || c == '\r'

/-- Python `str.strip()` with no argument: drop whitespace on both ends. -/
def pyStripWS (s : String) : String :=
  ⟨((s.data.dropWhile pyWhitespace).reverse.dropWhile pyWhitespace).reverse⟩

/-- Python `str.lstrip(chars)` for a single character: drop every leading
occurrence of that character. -/
def pyLstripChar (c : Char) (s : String) : String :=
  ⟨s.data.dropWhile (· == c)⟩

/-- Python `str.strip(chars)` for a single character: drop the character
from both ends. -/
def pyStripChar (c : Char) (s : String) : String :=
  ⟨((s.data.dropWhile (· == c)).reverse.dropWhile (· == c)).reverse⟩

/-- Helper for `pySplitChar`: split a character list at every occurrence
of `sep`, keeping empty pieces, exactly as Python's `str.split(sep)`. -/
def splitCharAux (sep : Char) : List Char → List Char → List String
  | [], acc => [⟨acc.reverse⟩]
  | c :: rest, acc =>
    if c == sep then ⟨acc.reverse⟩ :: splitCharAux sep rest []
    else splitCharAux sep rest (c :: acc)

/-- Python `str.split(sep)` for a one-character separator (empty pieces
kept; the empty string yields `[""]`). -/
def pySplitChar (sep : Char) (s : String) : List String :=
  splitCharAux sep s.data []

/-- Helper for `pySplitPred`: split at every character satisfying `p`,
keeping empty pieces (the behaviour of `re.split` on a single-character
alternation such as `",| "`). -/
def splitPredAux (p : Char → Bool) : List Char → List Char → List String
  | [], acc => [⟨acc.reverse⟩]
  | c :: rest, acc =>
    if p c then ⟨acc.reverse⟩ :: splitPredAux p rest []
    else splitPredAux p rest (c :: acc)

/-- Split a string at every character satisfying `p`, keeping empties. -/
def pySplitPred (p : Char → Bool) (s : String) : List String :=
  splitPredAux p s.data []

/-- Prefix test on character lists. -/
def listStartsWith [BEq α] (pre l : List α) : Bool :=
  match pre, l with
  | [], _ => true
  | _ :: _, [] => false
  | p :: ps, x :: xs => if p == x then listStartsWith ps xs else false

/-- Python `needle in haystack`: substring containment. -/
def strHasSub (needle hay : String) : Bool :=
  go needle.data hay.data
where
  go (n : List Char) : List Char → Bool
    | [] => listStartsWith n []
    | c :: rest => listStartsWith n (c :: rest) || go n rest

/-- Python `str.startswith`. -/
def strStartsWith (pre s : String) : Bool :=
  listStartsWith pre.data s.data

/-- Python `str.endswith`. -/
def strEndsWith (suf s : String) : Bool :=
  listStartsWith suf.data.reverse s.data.reverse

/-- Membership of a character in a string (Python `c in "…"`). -/
def charInStr (c : Char) (s : String) : Bool :=
  s.data.contains c

/-- Python `str.splitlines` restricted to the line breaks occurring in the
modelled inputs: `\r\n`, `\n` and `\r` (a trailing break produces no empty
final line; `""` yields `[]`). -/
def pySplitLines (s : String) : List String :=
  go s.data []
where
  go : List Char → List Char → List String
    | [], acc => if acc.isEmpty then [] else [⟨acc.reverse⟩]
    | '\r' :: '\n' :: rest, acc => ⟨acc.reverse⟩ :: go rest []
    | '\n' :: rest, acc => ⟨acc.reverse⟩ :: go rest []
    | '\r' :: rest, acc => ⟨acc.reverse⟩ :: go rest []
    | c :: rest, acc => go rest (c :: acc)

/-- The final path component, as `pathlib.PurePosixPath(p).name`: the piece
after the last `/`, ignoring trailing slashes. -/
def posixName (p : String) : String :=
  let trimmed := (p.data.reverse.dropWhile (· == '/')).reverse
  ⟨(trimmed.reverse.takeWhile (· != '/')).reverse⟩

/-- The extension of the final path component, as `pathlib`'s `suffix`:
the part of the name from its last dot, empty when the dot is the first or
the last character of the name. -/
def posixSuffix (p : String) : String :=
  let nm := (posixName p).data
  let afterDot := nm.reverse.takeWhile (· != '.')
  if afterDot.length == nm.length then ""
  else if afterDot.length == 0 then ""
  else if afterDot.length + 1 == nm.length then ""
  else ⟨'.' :: afterDot.reverse⟩

/-! ## Filesystem node model

`src/gitingest/schemas/filesystem.py` represents nodes as a class
hierarchy (`FileSystemFile`, `FileSystemDirectory`, `FileSystemSymlink`);
the formatter in `src/gitingest/output_formatter.py` consumes the same
shape through a `type` tag (`FileSystemNodeType`, declared outside the
sources present here, with the three variants used below) plus a
`likelihood_score : int` attribute that `server/ai_file_selector.py`
assigns (0 when never assigned).  Both views are embedded as one tagged
variant.  The file body that `FileSystemFile.get_content` reads from disk
is stored in the node, so a `file` node carries its `content` directly. -/
inductive FileSystemNode where
  | file (name pathStr content : String) (likelihoodScore : Nat) : FileSystemNode
  | directory (name pathStr : String) (likelihoodScore : Nat)
      (children : List FileSystemNode) : FileSystemNode
  | symlink (name pathStr target : String) (likelihoodScore : Nat) : FileSystemNode

/-- The `name` attribute of a node. -/
def FileSystemNode.name : FileSystemNode → String
  | .file nm _ _ _ => nm
  | .directory nm _ _ _ => nm
  | .symlink nm _ _ _ => nm

/-- The `path_str` attribute of a node. -/
def FileSystemNode.pathStr : FileSystemNode → String
  | .file _ p _ _ => p
  | .directory _ p _ _ => p
  | .symlink _ p _ _ => p

/-- The `likelihood_score` attribute of a node. -/
def FileSystemNode.likelihoodScore : FileSystemNode → Nat
  | .file _ _ _ sc => sc
  | .directory _ _ sc _ => sc
  | .symlink _ _ _ sc => sc

/-- Numeric tag distinguishing the three variants (0 file, 1 directory,
2 symlink); used only to state concrete examples readably. -/
def FileSystemNode.kindTag : FileSystemNode → Nat
  | .file .. => 0
  | .directory .. => 1
  | .symlink .. => 2

/-- The separator constant of `schemas/filesystem.py`:
`SEPARATOR = "=" * 48`. -/
def SEPARATOR : String :=
  ⟨List.replicate 48 '='⟩

/-- The OS path separator `os.sep`; gitingest runs the formatter on the
POSIX working trees it clones, where `os.sep = "/"`. -/
def osSep : String := "/"

/-- The header word of a content block: the class name uppercased with
`FILESYSTEM` removed (`type_name` in `FileSystemNode.content_string`). -/
def FileSystemNode.typeName : FileSystemNode → String
  | .file .. => "FILE"
  | .directory .. => "DIRECTORY"
  | .symlink .. => "SYMLINK"

/-- Python `str.replace(old, new)` for the one-character patterns used in
the sources (`path_str.replace(os.sep, '/')`). -/
def pyReplaceChar (old new : Char) (s : String) : String :=
  ⟨s.data.map (fun c => if c == old then new else c)⟩

/-- The `content` property / `get_content` method: file content for files,
the stored target for symlinks, and a `ValueError` for directories
(`FileSystemDirectory.get_content` raises
"Cannot read content of a directory node"). -/
def FileSystemNode.get_content : FileSystemNode → Except String String
  | .file _ _ content _ => .ok content
  | .symlink _ _ target _ => .ok target
  | .directory .. => .error "Cannot read content of a directory node"

/-- The pure body-to-block builder inside `content_string`:
`"\n".join([SEPARATOR, f"{type_name}: {path}", SEPARATOR, body]) + "\n\n"`
with the node's path separator-normalised. -/
def FileSystemNode.contentBlock (n : FileSystemNode) (body : String) : String :=
  String.intercalate "\n"
    [SEPARATOR,
     n.typeName ++ ": " ++ pyReplaceChar '/' '/' n.pathStr,
     SEPARATOR,
     body] ++ "\n\n"

/-- `FileSystemNode.content_string`: the emitted block of a node.  For a
directory it propagates the `ValueError` of `get_content`. -/
def FileSystemNode.content_string (n : FileSystemNode) : Except String String :=
  (n.get_content).map n.contentBlock

mutual

/-- `gather_contents`: files and symlinks contribute their
`content_string`; a directory joins its children's gathered contents with
`"\n"` and never touches its own content. -/
def FileSystemNode.gather_contents : FileSystemNode → Except String String
  | .directory _ _ _ cs => (gatherList cs).map (String.intercalate "\n")
  | n => n.content_string

/-- Children traversal of `gather_contents` (the generator expression
`child.gather_contents() for child in self.children`). -/
def gatherList : List FileSystemNode → Except String (List String)
  | [] => .ok []
  | c :: cs => do
    let s ← c.gather_contents
    let rest ← gatherList cs
    .ok (s :: rest)

end

/-- `get_sort_priority`: 0 for files (`FileSystemFile` overrides), 1 for
every other node (base-class default). -/
def FileSystemNode.get_sort_priority : FileSystemNode → Nat
  | .file .. => 0
  | _ => 1

/-- The `_sort_key` closure of `FileSystemNode.sort_children`, verbatim:
lowercase the name; README files first, then files split by hidden-ness,
then everything else (priority ≠ 0) split by hidden-ness. -/
def sortKey (child : FileSystemNode) : Nat × String :=
  let name := pyLower child.name
  let priority := child.get_sort_priority
  if priority == 0 && (name == "readme" || strStartsWith "readme." name) then
    (0, name)
  else if priority == 0 then
    (if !strStartsWith "." name then 1 else 2, name)
  else
    (if !strStartsWith "." name then 3 else 4, name)

/-- Python tuple comparison on `(int, str)` sort keys. -/
def keyLeB (a b : Nat × String) : Bool :=
  Nat.blt a.1 b.1 || (a.1 == b.1 && strLeB a.2 b.2)

/-- The ordering that `list.sort(key=_sort_key)` establishes between two
children: smaller-or-equal sort key. -/
def nodeLe (a b : FileSystemNode) : Prop :=
  keyLeB (sortKey a) (sortKey b) = true

instance : DecidableRel nodeLe := fun a b =>
  inferInstanceAs (Decidable (keyLeB (sortKey a) (sortKey b) = true))

/-- `sort_children`: Python's stable `list.sort(key=_sort_key)`, modelled
as a stable insertion sort ascending by `sortKey` (extensionally equal to
any stable sort by the same key). -/
def sort_children (children : List FileSystemNode) : List FileSystemNode :=
  List.insertionSort nodeLe children

/-! ## Git provisioner: reachability and ref resolution
(`src/gitingest/utils/git_utils.py`) -/

/-- The status dispatch of `check_repo_exists` once a HEAD response has
arrived: `200` → reachable, `401`/`403`/`404` → not reachable, any other
status → `RuntimeError` (modelled as `.error` with the message text). -/
def check_repo_exists (statusCode : Nat) : Except String Bool :=
  if statusCode == 200 then .ok true
  else if statusCode == 401 || statusCode == 403 || statusCode == 404 then .ok false
  else .error "Unexpected HTTP status"

/-- Python `ln.split(maxsplit=1)`: skip leading whitespace; the first
token runs to the next whitespace; after skipping that whitespace run the
remainder (if non-empty) is the second piece, kept verbatim. -/
def pySplitMax1 (s : String) : List String :=
  let afterLead := s.data.dropWhile pyWhitespace
  match afterLead with
  | [] => []
  | _ =>
    let tok := afterLead.takeWhile (fun c => !pyWhitespace c)
    let rest := (afterLead.dropWhile (fun c => !pyWhitespace c)).dropWhile pyWhitespace
    match rest with
    | [] => [⟨tok⟩]
    | _ => [⟨tok⟩, ⟨rest⟩]

/-- A blank `ls-remote` line (`not ln.strip()`). -/
def lineBlank (ln : String) : Bool :=
  pyStripWS ln == ""

/-- The SHA field of a well-formed `ls-remote` line. -/
def lineSha (ln : String) : String :=
  ((pySplitMax1 ln).headD "")

/-- The ref field of a well-formed `ls-remote` line. -/
def lineRef (ln : String) : String :=
  ((pySplitMax1 ln).getD 1 "")

/-- Whether a line is a peeled annotated-tag line: its ref ends in
`^{}` (written with escaped braces). -/
def linePeeled (ln : String) : Bool :=
  strEndsWith "^\x7b\x7d" (lineRef ln)

/-- `_pick_commit_sha` with its `first_non_peeled` accumulator: skip blank
lines; unpack `sha, ref = ln.split(maxsplit=1)` (a line that does not
yield two pieces raises a `ValueError`, modelled as `.error ()`); return
the SHA of the first peeled line immediately; otherwise remember the first
ordinary SHA and return it (or `none`) at the end. -/
def pickCommitShaAux (firstNonPeeled : Option String) :
    List String → Except Unit (Option String)
  | [] => .ok firstNonPeeled
  | ln :: rest =>
    if lineBlank ln then pickCommitShaAux firstNonPeeled rest
    else
      match pySplitMax1 ln with
      | [sha, ref] =>
        if strEndsWith "^\x7b\x7d" ref then .ok (some sha)
        else pickCommitShaAux (firstNonPeeled <|> some sha) rest
      | _ => .error ()

/-- `_pick_commit_sha(lines)` as called by `_resolve_ref_to_sha`. -/
def _pick_commit_sha (lines : List String) : Except Unit (Option String) :=
  pickCommitShaAux none lines

/-- Error outcomes of `_resolve_ref_to_sha` after the `ls-remote`
invocation returned `lines`. -/
inductive ResolveErr where
  | refNotFound
  | malformedLine
  deriving DecidableEq

/-- The tail of `_resolve_ref_to_sha`: pick a SHA from the listing; a
`None` result raises `ValueError(f"{pattern!r} not found in {url}")`,
modelled as `refNotFound`. -/
def resolveRefOutcome (lines : List String) : Except ResolveErr String :=
  match _pick_commit_sha lines with
  | .error () => .error .malformedLine
  | .ok none => .error .refNotFound
  | .ok (some sha) => .ok sha

/-! ## Source resolver (`src/gitingest/query_parser.py`) -/

/-- `string.hexdigits` membership: `0-9`, `a-f` and `A-F` (note that the
Python constant contains both cases). -/
def inHexDigits (c : Char) : Bool :=
  charInStr c "0123456789abcdefABCDEF"

/-- `_is_valid_git_commit_hash`: length 40 and every character in
`string.hexdigits`. -/
def _is_valid_git_commit_hash (commit : String) : Bool :=
  commit.data.length == 40 && commit.data.all inHexDigits

/-- The classification step of `_parse_repo_source` after a `tree`/`blob`
path type: the next segment becomes the commit when
`_is_valid_git_commit_hash` accepts it and the branch otherwise.  The
result is the `(commit, branch)` pair of the query. -/
def classifyCommitOrBranch (seg : String) : Option String × Option String :=
  if _is_valid_git_commit_hash seg then (some seg, none) else (none, some seg)

/-- Python's `str.isalnum` per character: true for Unicode letters and
numeric characters.  The model is exact for every code point up to
`U+00FF` (ASCII letters and digits, plus the Latin-1 Supplement
alphanumerics `ª µ º ² ³ ¹ ¼ ½ ¾ À–Ö Ø–ö ø–ÿ`); code points above
`U+00FF` are outside the model and never appear in the inputs considered
below. -/
def pyIsAlnum (c : Char) : Bool :=
  c.isAlphanum ||
    (let v := c.toNat
     v == 0xAA || v == 0xB5 || v == 0xBA ||
     v == 0xB2 || v == 0xB3 || v == 0xB9 ||
     (0xBC ≤ v && v ≤ 0xBE) ||
     (0xC0 ≤ v && v ≤ 0xD6) ||
     (0xD8 ≤ v && v ≤ 0xF6) ||
     (0xF8 ≤ v && v ≤ 0xFF))

/-- `_is_valid_pattern`: every character is alphanumeric (Python
`str.isalnum`) or one of `-_./+*`. -/
def _is_valid_pattern (pattern : String) : Bool :=
  pattern.data.all (fun c => pyIsAlnum c || charInStr c "-_./+*")

/-- `_normalize_pattern`: strip leading `os.sep` and append `*` when the
pattern ends with `os.sep` (POSIX: `/`). -/
def _normalize_pattern (pattern : String) : String :=
  let pattern := pyLstripChar '/' pattern
  if strEndsWith "/" pattern then pattern ++ "*" else pattern

/-- The pieces `_parse_patterns` works on: each input string split by
`re.split(",| ", p)` (at every single comma or space), concatenated, with
empty strings filtered out. -/
def patternPieces (patterns : List String) : List String :=
  (patterns.flatMap (pySplitPred (fun c => c == ',' || c == ' '))).filter
    (fun p => p != "")

/-- `_parse_patterns` on a list input (a single string is the singleton
list): split, filter empties, raise `InvalidPatternError(p)` on the first
invalid piece, else normalize every piece. -/
def _parse_patterns (patterns : List String) : Except String (List String) :=
  let pieces := patternPieces patterns
  match pieces.find? (fun p => !_is_valid_pattern p) with
  | some p => .error p
  | none => .ok (pieces.map _normalize_pattern)

/-- `_get_user_and_repo_from_path`:
`path.lower().strip("/").split("/")`, raising `ValueError` when fewer
than two parts result, else the first two parts. -/
def _get_user_and_repo_from_path (path : String) : Except String (String × String) :=
  let pathParts := pySplitChar '/' (pyStripChar '/' (pyLower path))
  if pathParts.length < 2 then .error ("Invalid repository URL " ++ path)
  else .ok (pathParts.headD "", pathParts.getD 1 "")

/-- The slug construction of `_parse_repo_source`:
`f"{user_name}-{repo_name}"`. -/
def repoSlug (userName repoName : String) : String :=
  userName ++ "-" ++ repoName

/-- The normalized clone URL of `_parse_repo_source`:
`f"https://{host}/{user_name}/{repo_name}"` where
`host = parsed_url.netloc.lower()`. -/
def repoUrl (netloc userName repoName : String) : String :=
  "https://" ++ pyLower netloc ++ "/" ++ userName ++ "/" ++ repoName

/-! ## Token accountant (`src/gitingest/utils/token_utils.py` and
`_count_tokens` of `src/gitingest/output_formatter.py`) -/

/-- The fallback estimate `int(len(text) * 1.3)` of
`count_tokens_optimized`: Python's `int()` truncates toward zero, so for
the non-negative lengths involved this is the floor of `13·len/10`.  (The
IEEE-754 product `len * 1.3` equals the exact product closely enough that
the two agree at every length used below; the rational model is the exact
value.) -/
def fallbackEstimate (textLen : Nat) : Nat :=
  13 * textLen / 10

/-- `count_tokens_optimized`, with the encoder modelled as an optional
injected counter (`None` when tiktoken is unavailable or loading failed)
and the `GITINGEST_DISABLE_TOKEN_COUNTING` flag explicit.  The chunked
summation over 100k-character slices is represented by the counter itself
(its failure branches both return the same fallback). -/
def count_tokens_optimized (disabled : Bool) (encoding : Option (String → Nat))
    (text : String) : Nat :=
  if disabled then fallbackEstimate text.data.length
  else
    match encoding with
    | none => fallbackEstimate text.data.length
    | some enc => enc text

/-- `_count_tokens` of the output formatter: tiktoken's count when the
encoder loads, and `len(text) // 4` when anything raises. -/
def _count_tokens (encoding : Option (String → Nat)) (text : String) : Nat :=
  match encoding with
  | some enc => enc text
  | none => text.data.length / 4

/-! ## Order infrastructure for `sort_children` -/

/-- Characters with equal code points are equal. -/
lemma char_eq_of_toNat_eq {a b : Char} (h : a.toNat = b.toNat) : a = b :=
  Char.ext (UInt32.ext h)

/-- Unfolding `charLtB` into the code-point order. -/
lemma charLtB_iff {a b : Char} : charLtB a b = true ↔ a.toNat < b.toNat := by
  simp [charLtB, Nat.blt_eq]

/-- `charListLtB` is trichotomous. -/
lemma charListLtB_trichotomy : ∀ a b : List Char,
    charListLtB a b = true ∨ charListLtB b a = true ∨ a = b := by
  intro a
  induction a with
  | nil => intro b; cases b <;> simp [charListLtB]
  | cons x xs ih =>
    intro b
    cases b with
    | nil => simp [charListLtB]
    | cons y ys =>
      by_cases h1 : charLtB x y = true
      · left; simp [charListLtB, h1]
      · by_cases h2 : charLtB y x = true
        · right; left; simp [charListLtB, h2]
        · have hx : x = y := by
            apply char_eq_of_toNat_eq
            rw [charLtB_iff] at h1 h2
            omega
          subst hx
          rcases ih ys with h | h | h
          · left; simp [charListLtB, h1, h]
          · right; left; simp [charListLtB, h1, h]
          · right; right; rw [h]

/-- `charListLtB` is transitive. -/
lemma charListLtB_trans : ∀ a b c : List Char,
    charListLtB a b = true → charListLtB b c = true → charListLtB a c = true := by
  intro a
  induction a with
  | nil =>
    intro b c hab hbc
    cases b with
    | nil => simp [charListLtB] at hab
    | cons y ys => cases c with
      | nil => simp [charListLtB] at hbc
      | cons z zs => simp [charListLtB]
  | cons x xs ih =>
    intro b c hab hbc
    cases b with
    | nil => simp [charListLtB] at hab
    | cons y ys =>
      cases c with
      | nil => simp [charListLtB] at hbc
      | cons z zs =>
        simp only [charListLtB] at hab hbc ⊢
        by_cases hxy : charLtB x y = true
        · by_cases hyz : charLtB y z = true
          · have : charLtB x z = true := by
              rw [charLtB_iff] at *; omega
            simp [this]
          · by_cases hzy : charLtB z y = true
            · simp [hyz, hzy] at hbc
            · have : y = z := char_eq_of_toNat_eq (by rw [charLtB_iff] at hyz hzy; omega)
              subst this
              simp [hxy]
        · by_cases hyx : charLtB y x = true
          · simp [hxy, hyx] at hab
          · have : x = y := char_eq_of_toNat_eq (by rw [charLtB_iff] at hxy hyx; omega)
            subst this
            by_cases hyz : charLtB x z = true
            · simp [hyz]
            · by_cases hzy : charLtB z x = true
              · simp [hyz, hzy] at hbc
              · simp only [hxy, hyz, hzy, if_neg, if_pos] at hab hbc ⊢
                simp at hab hbc
                exact ih _ _ hab hbc

/-- The Python string order is total. -/
lemma strLeB_total (a b : String) : strLeB a b = true ∨ strLeB b a = true := by
  rcases charListLtB_trichotomy a.data b.data with h | h | h
  · left; simp [strLeB, h]
  · right; simp [strLeB, h]
  · left
    have : a = b := by
      cases a; cases b; simp at h; rw [h]
    simp [strLeB, this]

/-- The Python string order is transitive. -/
lemma strLeB_trans {a b c : String} (h1 : strLeB a b = true) (h2 : strLeB b c = true) :
    strLeB a c = true := by
  simp only [strLeB, Bool.or_eq_true, beq_iff_eq] at h1 h2 ⊢
  rcases h1 with h1 | h1
  · rcases h2 with h2 | h2
    · exact Or.inl (charListLtB_trans _ _ _ h1 h2)
    · subst h2; exact Or.inl h1
  · subst h1
    exact h2

/-- Python tuple comparison on sort keys is total. -/
lemma keyLeB_total (a b : Nat × String) : keyLeB a b = true ∨ keyLeB b a = true := by
  rcases Nat.lt_trichotomy a.1 b.1 with h | h | h
  · left; simp [keyLeB, Nat.blt_eq, h]
  · rcases strLeB_total a.2 b.2 with hs | hs
    · left; simp [keyLeB, Nat.blt_eq, h, hs]
    · right; simp [keyLeB, Nat.blt_eq, h, hs]
  · right; simp [keyLeB, Nat.blt_eq, h]

/-- Python tuple comparison on sort keys is transitive. -/
lemma keyLeB_trans {a b c : Nat × String} (h1 : keyLeB a b = true)
    (h2 : keyLeB b c = true) : keyLeB a c = true := by
  simp only [keyLeB, Bool.or_eq_true, Bool.and_eq_true, Nat.blt_eq, beq_iff_eq] at h1 h2 ⊢
  rcases h1 with h1 | ⟨h1, h1'⟩
  · rcases h2 with h2 | ⟨h2, _⟩
    · exact Or.inl (Nat.lt_trans h1 h2)
    · exact Or.inl (h2 ▸ h1)
  · rcases h2 with h2 | ⟨h2, h2'⟩
    · exact Or.inl (h1 ▸ h2)
    · exact Or.inr ⟨h1.trans h2, strLeB_trans h1' h2'⟩

instance : IsTotal FileSystemNode nodeLe :=
  ⟨fun a b => keyLeB_total (sortKey a) (sortKey b)⟩

instance : IsTrans FileSystemNode nodeLe :=
  ⟨fun _ _ _ => keyLeB_trans⟩

/-! ## String append associativity (used to restate emitted blocks) -/

/-- String concatenation is associative. -/
lemma str_append_assoc (a b c : String) : a ++ b ++ c = a ++ (b ++ c) := by
  cases a with | mk la =>
  cases b with | mk lb =>
  cases c with | mk lc =>
  show String.mk ((la ++ lb) ++ lc) = String.mk (la ++ (lb ++ lc))
  rw [List.append_assoc]

/-- C2: the content block emitted for a file node is the 48-`=` separator
line, then a `FILE: ` header carrying the node's path with every OS path
separator replaced by `/`, then the separator line again, then the file
body followed by a blank line (the block ends in `"\n\n"`, so a blank line
stands before the next block's separator). -/
theorem file_content_block_format (nm p c : String) (sc : Nat) :
    (FileSystemNode.file nm p c sc).content_string =
      .ok (SEPARATOR ++ "\n" ++ "FILE: " ++ pyReplaceChar '/' '/' p ++ "\n" ++
        SEPARATOR ++ "\n" ++ c ++ "\n\n") ∧
    SEPARATOR.data = List.replicate 48 '=' ∧
    SEPARATOR.data.length = 48 := by
  refine ⟨?_, rfl, by decide⟩
  show Except.ok (String.intercalate "\n"
      [SEPARATOR, "FILE" ++ ": " ++ pyReplaceChar '/' '/' p, SEPARATOR, c] ++ "\n\n") = _
  congr 1

/-- C10: reading the content of a directory node raises
`ValueError("Cannot read content of a directory node")`; gathering the
contents of a directory only joins its children's gathered blocks (the
directory's own content is never read), and gathering never fails on any
tree, so the `ValueError` never reaches the digest. -/
theorem directory_content_error_and_gather :
    (∀ (nm p : String) (sc : Nat) (cs : List FileSystemNode),
        (FileSystemNode.directory nm p sc cs).get_content =
          .error "Cannot read content of a directory node" ∧
        (FileSystemNode.directory nm p sc cs).gather_contents =
          (gatherList cs).map (String.intercalate "\n")) ∧
    (∀ t : FileSystemNode, ∃ s, t.gather_contents = .ok s) := by
  constructor
  · intro nm p sc cs
    exact ⟨rfl, rfl⟩
  · intro t
    induction t using FileSystemNode.rec
      (motive_2 := fun l => ∃ ss, gatherList l = .ok ss) with
    | file nm p c sc => exact ⟨_, rfl⟩
    | symlink nm p tg sc => exact ⟨_, rfl⟩
    | directory nm p sc cs ih =>
      obtain ⟨ss, hss⟩ := ih
      refine ⟨String.intercalate "\n" ss, ?_⟩
      show (gatherList cs).map (String.intercalate "\n") = _
      rw [hss]
      rfl
    | nil => exact ⟨[], rfl⟩
    | cons c cs ihc ihcs =>
      obtain ⟨s, hs⟩ := ihc
      obtain ⟨ss, hss⟩ := ihcs
      refine ⟨s :: ss, ?_⟩
      show (c.gather_contents >>= fun x =>
        gatherList cs >>= fun rest => Except.ok (x :: rest)) = _
      rw [hs, hss]
      rfl

/-- The grouping that the claim asserts for `sort_children`, written from
the claim's words (README files 0, plain files 1, hidden files 2, plain
directories 3, hidden directories 4, symlinks 5); kept separate from the
code's `sortKey` so the two can be compared. -/
def claimGroup : FileSystemNode → Nat
  | .file nm _ _ _ =>
    let lname := pyLower nm
    if lname == "readme" || strStartsWith "readme." lname then 0
    else if strStartsWith "." lname then 2 else 1
  | .directory nm _ _ _ => if strStartsWith "." (pyLower nm) then 4 else 3
  | .symlink .. => 5

/-- A symlink named `a` next to a directory named `b`. -/
def symNodeA : FileSystemNode := .symlink "a" "a" "t" 0

/-- A directory named `b`. -/
def dirNodeB : FileSystemNode := .directory "b" "b" 0 []

/-- C3 counterexample: the claim puts symlinks in a trailing group 5 after
all directories, but the code sorts symlinks together with directories
(priority 1 ↦ groups 3/4).  Sorting `[symlink "a", directory "b"]` leaves
the symlink first, while the claimed key order demands the directory
first. -/
theorem children_sort_claim_cex :
    (sort_children [symNodeA, dirNodeB]).map FileSystemNode.kindTag = [2, 1] ∧
    (sort_children [symNodeA, dirNodeB]).map FileSystemNode.name = ["a", "b"] ∧
    claimGroup symNodeA = 5 ∧ claimGroup dirNodeB = 3 ∧
    keyLeB (claimGroup symNodeA, pyLower symNodeA.name)
      (claimGroup dirNodeB, pyLower dirNodeB.name) = false := by
  decide

/-- C3 amended: `sort_children` permutes the children into nondecreasing
`sortKey` order, where the key's second component is the lowercased name
and its first component is: 0 for files named `README`/`README.*`
(case-insensitively), 1 for other non-hidden files, 2 for hidden files,
and — for every non-file node, symlinks included — 3 when non-hidden and
4 when hidden; symlinks get exactly the key a directory of the same name
would get (there is no separate symlink group). -/
theorem children_sort_amended (cs : List FileSystemNode) :
    (sort_children cs).Perm cs ∧
    List.Sorted nodeLe (sort_children cs) ∧
    (∀ (nm p t : String) (sc : Nat),
        sortKey (.symlink nm p t sc) = sortKey (.directory nm p sc [])) ∧
    (∀ n : FileSystemNode, (sortKey n).2 = pyLower n.name) ∧
    (∀ n : FileSystemNode, n.kindTag ≠ 0 →
        (sortKey n).1 = if strStartsWith "." (pyLower n.name) then 4 else 3) ∧
    (∀ (nm p c : String) (sc : Nat),
        (sortKey (.file nm p c sc)).1 =
          if pyLower nm == "readme" || strStartsWith "readme." (pyLower nm) then 0
          else if strStartsWith "." (pyLower nm) then 2 else 1) := by
  refine ⟨List.perm_insertionSort nodeLe cs, List.sorted_insertionSort nodeLe cs,
    fun nm p t sc => rfl, ?_, ?_, ?_⟩
  · intro n
    cases n <;>
      simp only [sortKey, FileSystemNode.get_sort_priority, FileSystemNode.name] <;>
      split <;> simp
  · intro n hn
    cases n with
    | file => simp [FileSystemNode.kindTag] at hn
    | directory nm p sc cs' =>
      cases h : strStartsWith "." (pyLower nm) <;>
        simp [sortKey, FileSystemNode.get_sort_priority, FileSystemNode.name, h]
    | symlink nm p t sc =>
      cases h : strStartsWith "." (pyLower nm) <;>
        simp [sortKey, FileSystemNode.get_sort_priority, FileSystemNode.name, h]
  · intro nm p c sc
    cases hr : (pyLower nm == "readme" || strStartsWith "readme." (pyLower nm)) <;>
      cases h : strStartsWith "." (pyLower nm) <;>
        simp [sortKey, FileSystemNode.get_sort_priority, FileSystemNode.name, hr, h]

/-! ## C5: reachability status dispatch -/

/-- C5 counterexample: 204 is a 2xx status, but `check_repo_exists` raises
`RuntimeError` for it instead of reporting the repository reachable — only
status 200 is accepted. -/
theorem repo_reachability_claim_cex :
    ((200 : Nat) ≤ 204 ∧ 204 < 300) ∧
    check_repo_exists 204 = .error "Unexpected HTTP status" ∧
    check_repo_exists 204 ≠ .ok true := by
  refine ⟨by decide, rfl, fun h => nomatch h⟩

/-- C5 amended: status 200 yields reachable, 401/403/404 yield not
reachable, and every other status — other 2xx codes included — raises the
`RuntimeError`. -/
theorem repo_reachability_amended (s : Nat) :
    (s = 200 → check_repo_exists s = .ok true) ∧
    ((s = 401 ∨ s = 403 ∨ s = 404) → check_repo_exists s = .ok false) ∧
    (s ≠ 200 → s ≠ 401 → s ≠ 403 → s ≠ 404 →
      check_repo_exists s = .error "Unexpected HTTP status") := by
  refine ⟨?_, ?_, ?_⟩
  · rintro rfl; rfl
  · rintro (rfl | rfl | rfl) <;> rfl
  · intro h1 h2 h3 h4
    simp only [check_repo_exists]
    rw [if_neg (by simp [h1]), if_neg (by simp [h2, h3, h4])]

/-- C5 amended witness: the amended theorem applied at status 204. -/
theorem repo_reachability_amended_witness :
    check_repo_exists 204 = .error "Unexpected HTTP status" :=
  (repo_reachability_amended 204).2.2 (by decide) (by decide) (by decide) (by decide)

/-! ## C6: commit-hash classification -/

/-- The sixteen lowercase hexadecimal characters. -/
def lowerHexChars : List Char :=
  ("0123456789abcdef" : String).data

/-- The six uppercase hexadecimal letters. -/
def upperHexChars : List Char :=
  ("ABCDEF" : String).data

/-- `string.hexdigits` membership split into the lowercase hexadecimal
alphabet and the additional uppercase letters. -/
lemma hexDigits_mem_iff (ch : Char) :
    inHexDigits ch = true ↔ (ch ∈ lowerHexChars ∨ ch ∈ upperHexChars) := by
  constructor
  · intro h
    have hm : ch ∈ ("0123456789abcdefABCDEF" : String).data := by
      simpa [inHexDigits, charInStr] using h
    fin_cases hm <;> decide
  · intro h
    rcases h with hm | hm
    · simp only [lowerHexChars] at hm
      fin_cases hm <;> decide
    · simp only [upperHexChars] at hm
      fin_cases hm <;> decide

/-- A 40-character string of uppercase `A`s. -/
def fortyUpperA : String := ⟨List.replicate 40 'A'⟩

/-- The claim's classifier alphabet: 40 characters, all lowercase hex. -/
def claimLowerHex (s : String) : Bool :=
  s.data.length == 40 && s.data.all (fun ch => lowerHexChars.contains ch)

/-- C6 counterexample: forty uppercase `A`s are not a lowercase
hexadecimal string, yet `_is_valid_git_commit_hash` accepts them (it
checks `string.hexdigits`, which contains `A`–`F`), so the segment is
classified as a commit, not a branch. -/
theorem commit_hash_claim_cex :
    _is_valid_git_commit_hash fortyUpperA = true ∧
    classifyCommitOrBranch fortyUpperA = (some fortyUpperA, none) ∧
    claimLowerHex fortyUpperA = false := by
  decide

/-- C6 amended: the segment after `tree`/`blob` is classified as a commit
iff it has exactly 40 characters drawn from the hexadecimal digits in
either case (lowercase `0-9a-f` or uppercase `A-F`); otherwise it becomes
the branch, and exactly one of the two fields is set. -/
theorem commit_hash_amended (s : String) :
    ((classifyCommitOrBranch s).1 = some s ↔
      (s.data.length = 40 ∧ ∀ ch ∈ s.data, ch ∈ lowerHexChars ∨ ch ∈ upperHexChars)) ∧
    (classifyCommitOrBranch s = (some s, none) ∨
      classifyCommitOrBranch s = (none, some s)) := by
  have hiff : _is_valid_git_commit_hash s = true ↔
      (s.data.length = 40 ∧ ∀ ch ∈ s.data, ch ∈ lowerHexChars ∨ ch ∈ upperHexChars) := by
    simp only [_is_valid_git_commit_hash, Bool.and_eq_true, beq_iff_eq, List.all_eq_true]
    constructor
    · rintro ⟨h1, h2⟩
      exact ⟨h1, fun ch hch => (hexDigits_mem_iff ch).1 (h2 ch hch)⟩
    · rintro ⟨h1, h2⟩
      exact ⟨h1, fun ch hch => (hexDigits_mem_iff ch).2 (h2 ch hch)⟩
  constructor
  · constructor
    · intro h1
      by_cases hv : _is_valid_git_commit_hash s = true
      · exact hiff.mp hv
      · simp [classifyCommitOrBranch, hv] at h1
    · intro h2
      have hv := hiff.mpr h2
      simp [classifyCommitOrBranch, hv]
  · by_cases hv : _is_valid_git_commit_hash s = true
    · left; simp [classifyCommitOrBranch, hv]
    · right; simp [classifyCommitOrBranch, hv]

/-! ## C8: token-count fallback -/

/-- C8 counterexample: at length 3 the code's fallback `int(3 * 1.3)`
truncates `3.9` down to `3`, while the claimed ceiling of `3 × 1.3` is
`4`. -/
theorem token_fallback_claim_cex :
    fallbackEstimate 3 = 3 ∧
    (⌈(3 : ℚ) * (13 / 10)⌉ : ℤ) = 4 ∧
    count_tokens_optimized true none "abc" = 3 := by
  refine ⟨rfl, ?_, rfl⟩
  rw [show ((3 : ℚ) * (13 / 10)) = 39 / 10 by norm_num]
  rw [Int.ceil_eq_iff]
  constructor <;> norm_num

/-- C8 amended: when counting is disabled or the encoder is unavailable,
`count_tokens_optimized` returns `int(len(text) * 1.3)` — the floor of
`13·len/10`, not the ceiling — and the formatter's own `_count_tokens`
falls back to `len(text) // 4` instead. -/
theorem token_fallback_amended (text : String) (enc : String → Nat) :
    count_tokens_optimized true (some enc) text = fallbackEstimate text.data.length ∧
    count_tokens_optimized false none text = fallbackEstimate text.data.length ∧
    10 * fallbackEstimate text.data.length ≤ 13 * text.data.length ∧
    13 * text.data.length < 10 * fallbackEstimate text.data.length + 10 ∧
    _count_tokens none text = text.data.length / 4 ∧
    4 * (text.data.length / 4) ≤ text.data.length ∧
    text.data.length < 4 * (text.data.length / 4) + 4 := by
  refine ⟨rfl, rfl, ?_, ?_, rfl, ?_, ?_⟩
  · simp only [fallbackEstimate]
    omega
  · simp only [fallbackEstimate]
    omega
  · omega
  · omega

/-! ## C9: owner and repository names are lowercased -/

/-- A string containing no ASCII uppercase letter. -/
def noAsciiUpper (s : String) : Prop :=
  ∀ ch ∈ s.data, ¬('A' ≤ ch ∧ ch ≤ 'Z')

instance (s : String) : Decidable (noAsciiUpper s) :=
  inferInstanceAs (Decidable (∀ ch ∈ s.data, ¬('A' ≤ ch ∧ ch ≤ 'Z')))

/-- `Char.ofNat` of a valid code point has that code point. -/
lemma char_toNat_ofNat_valid {m : Nat} (h : Nat.isValidChar m) :
    (Char.ofNat m).toNat = m := by
  rw [Char.ofNat, dif_pos h]
  rfl

/-- `Char.toLower` never produces an ASCII uppercase letter. -/
lemma toLower_not_upper (ch : Char) : ¬('A' ≤ ch.toLower ∧ ch.toLower ≤ 'Z') := by
  show ¬(65 ≤ ch.toLower.toNat ∧ ch.toLower.toNat ≤ 90)
  by_cases h : 65 ≤ ch.toNat ∧ ch.toNat ≤ 90
  · rw [show ch.toLower = Char.ofNat (ch.toNat + 32) from by
      simp only [Char.toLower]
      rw [if_pos]
      omega]
    rw [char_toNat_ofNat_valid (by left; omega)]
    omega
  · rw [show ch.toLower = ch from by
      simp only [Char.toLower]
      rw [if_neg]
      omega]
    exact h

/-- Lowercased strings contain no ASCII uppercase letter. -/
lemma pyLower_noAsciiUpper (s : String) : noAsciiUpper (pyLower s) := by
  intro ch hch
  simp only [pyLower, List.mem_map] at hch
  obtain ⟨c, _, rfl⟩ := hch
  exact toLower_not_upper c

/-- Characters of any piece of `splitCharAux` come from the input list or
the accumulator. -/
lemma mem_splitCharAux {sep c : Char} :
    ∀ (l acc : List Char) (piece : String), piece ∈ splitCharAux sep l acc →
      c ∈ piece.data → c ∈ l ∨ c ∈ acc := by
  intro l
  induction l with
  | nil =>
    intro acc piece hp hc
    simp only [splitCharAux, List.mem_singleton] at hp
    subst hp
    right
    exact List.mem_reverse.mp hc
  | cons x xs ih =>
    intro acc piece hp hc
    simp only [splitCharAux] at hp
    by_cases hx : (x == sep) = true
    · rw [if_pos hx] at hp
      rcases List.mem_cons.mp hp with rfl | hp'
      · right
        exact List.mem_reverse.mp hc
      · rcases ih [] piece hp' hc with h | h
        · exact Or.inl (List.mem_cons_of_mem _ h)
        · simp at h
    · rw [if_neg hx] at hp
      rcases ih (x :: acc) piece hp hc with h | h
      · exact Or.inl (List.mem_cons_of_mem _ h)
      · rcases List.mem_cons.mp h with rfl | h'
        · exact Or.inl (List.mem_cons_self _ _)
        · exact Or.inr h'

/-- Characters of any split piece come from the split string. -/
lemma mem_pySplitChar {sep c : Char} {s piece : String}
    (hp : piece ∈ pySplitChar sep s) (hc : c ∈ piece.data) : c ∈ s.data := by
  rcases mem_splitCharAux s.data [] piece hp hc with h | h
  · exact h
  · simp at h

/-- Characters survive `pyStripChar` only if present in the input. -/
lemma mem_pyStripChar {c ch : Char} {s : String}
    (h : ch ∈ (pyStripChar c s).data) : ch ∈ s.data := by
  simp only [pyStripChar] at h
  have h1 := List.mem_reverse.mp h
  have h2 := (List.dropWhile_sublist _).subset h1
  have h3 := List.mem_reverse.mp h2
  exact (List.dropWhile_sublist _).subset h3

/-- Every piece obtained by `_get_user_and_repo_from_path`'s
lower-strip-split pipeline contains no ASCII uppercase letter. -/
lemma parts_noAsciiUpper (path piece : String)
    (hp : piece ∈ pySplitChar '/' (pyStripChar '/' (pyLower path))) :
    noAsciiUpper piece := by
  intro ch hch
  have h1 : ch ∈ (pyStripChar '/' (pyLower path)).data := mem_pySplitChar hp hch
  have h2 : ch ∈ (pyLower path).data := mem_pyStripChar h1
  exact pyLower_noAsciiUpper path ch h2

/-- Concatenation preserves the absence of ASCII uppercase letters. -/
lemma noAsciiUpper_append {a b : String} (ha : noAsciiUpper a)
    (hb : noAsciiUpper b) : noAsciiUpper (a ++ b) := by
  intro ch hch
  have hm : ch ∈ a.data ++ b.data := by
    cases a with | mk la =>
    cases b with | mk lb =>
    exact hch
  rcases List.mem_append.mp hm with h | h
  · exact ha ch h
  · exact hb ch h

/-- C9: whenever `_get_user_and_repo_from_path` succeeds, the owner and
repository names contain no ASCII uppercase letter (the URL path is
lowercased before splitting), and consequently the derived slug and the
normalized clone URL (whose host is itself lowercased) contain none
either. -/
theorem resolver_lowercases_owner_repo (path u r netloc : String)
    (h : _get_user_and_repo_from_path path = .ok (u, r)) :
    noAsciiUpper u ∧ noAsciiUpper r ∧ noAsciiUpper (repoSlug u r) ∧
    noAsciiUpper (repoUrl netloc u r) := by
  have hparts : ∀ piece ∈ pySplitChar '/' (pyStripChar '/' (pyLower path)),
      noAsciiUpper piece := fun piece hp => parts_noAsciiUpper path piece hp
  simp only [_get_user_and_repo_from_path] at h
  by_cases hlen :
      (pySplitChar '/' (pyStripChar '/' (pyLower path))).length < 2
  · rw [if_pos hlen] at h
    exact absurd h (by simp)
  · rw [if_neg hlen] at h
    have hu : u = (pySplitChar '/' (pyStripChar '/' (pyLower path))).headD "" := by
      cases h
      rfl
    have hr : r = (pySplitChar '/' (pyStripChar '/' (pyLower path))).getD 1 "" := by
      cases h
      rfl
    have hun : noAsciiUpper u := by
      rw [hu]
      cases hps : pySplitChar '/' (pyStripChar '/' (pyLower path)) with
      | nil => intro ch hch; simp [List.headD] at hch
      | cons a rest =>
        have := hparts a (by rw [hps]; exact List.mem_cons_self _ _)
        simpa [List.headD] using this
    have hrn : noAsciiUpper r := by
      rw [hr, List.getD_eq_getElem?_getD]
      rcases hg : (pySplitChar '/' (pyStripChar '/' (pyLower path)))[1]? with _ | x
      · intro ch hch
        simp at hch
      · exact hparts x (List.getElem?_mem hg)
    refine ⟨hun, hrn, ?_, ?_⟩
    · exact noAsciiUpper_append (noAsciiUpper_append hun (by decide)) hrn
    · exact noAsciiUpper_append (noAsciiUpper_append (noAsciiUpper_append
        (noAsciiUpper_append (noAsciiUpper_append (by decide)
          (pyLower_noAsciiUpper netloc)) (by decide)) hun) (by decide)) hrn

/-- C9 witness: the theorem applied to the concrete path
`/FooBar/BazQUX/tree/Main` (owner and repo come out lowercased). -/
theorem resolver_lowercases_witness :
    noAsciiUpper "foobar" ∧ noAsciiUpper "bazqux" ∧
    noAsciiUpper (repoSlug "foobar" "bazqux") ∧
    noAsciiUpper (repoUrl "GitHub.COM" "foobar" "bazqux") :=
  resolver_lowercases_owner_repo "/FooBar/BazQUX/tree/Main" "foobar" "bazqux"
    "GitHub.COM" rfl

/-! ## C7: include/ignore pattern parsing -/

/-- Python's `str.isalnum` agrees with the ASCII alphanumeric test below
code point 128. -/
lemma pyIsAlnum_ascii (ch : Char) (h : ch.toNat < 128) :
    pyIsAlnum ch = ch.isAlphanum := by
  have h1 : (ch.toNat == 0xAA) = false := by simp; omega
  have h2 : (ch.toNat == 0xB5) = false := by simp; omega
  have h3 : (ch.toNat == 0xBA) = false := by simp; omega
  have h4 : (ch.toNat == 0xB2) = false := by simp; omega
  have h5 : (ch.toNat == 0xB3) = false := by simp; omega
  have h6 : (ch.toNat == 0xB9) = false := by simp; omega
  have h7 : (decide (0xBC ≤ ch.toNat) && decide (ch.toNat ≤ 0xBE)) = false := by
    simp; omega
  have h8 : (decide (0xC0 ≤ ch.toNat) && decide (ch.toNat ≤ 0xD6)) = false := by
    simp; omega
  have h9 : (decide (0xD8 ≤ ch.toNat) && decide (ch.toNat ≤ 0xF6)) = false := by
    simp; omega
  have h10 : (decide (0xF8 ≤ ch.toNat) && decide (ch.toNat ≤ 0xFF)) = false := by
    simp; omega
  simp only [pyIsAlnum, h1, h2, h3, h4, h5, h6, h7, h8, h9, h10,
    Bool.or_false]

/-- After `lstrip('/')` a character list never starts with `/`. -/
lemma dropWhile_slash_head : ∀ l : List Char,
    listStartsWith ['/'] (l.dropWhile (· == '/')) = false := by
  intro l
  induction l with
  | nil => rfl
  | cons x xs ih =>
    rw [List.dropWhile_cons]
    by_cases hx : (x == '/') = true
    · rw [if_pos hx]
      exact ih
    · rw [if_neg hx]
      simp only [listStartsWith]
      have h1 : ('/' == x) = false := by
        rw [beq_eq_false_iff_ne]
        intro hxe
        subst hxe
        exact hx (by decide)
      rw [h1]
      simp

/-- `_normalize_pattern` never yields a pattern with a leading path
separator. -/
lemma normalize_no_leading_sep (pat : String) :
    strStartsWith "/" (_normalize_pattern pat) = false := by
  simp only [_normalize_pattern, pyLstripChar]
  by_cases he : strEndsWith "/" (⟨pat.data.dropWhile (· == '/')⟩ : String) = true
  · rw [if_pos he]
    show listStartsWith ['/'] ((pat.data.dropWhile (· == '/')) ++ "*".data) = false
    cases hd : pat.data.dropWhile (· == '/') with
    | nil =>
      -- an empty list cannot end with '/'
      exfalso
      rw [strEndsWith] at he
      simp only [hd] at he
      exact absurd he (by decide)
    | cons y ys =>
      have := dropWhile_slash_head pat.data
      rw [hd] at this
      simp only [List.cons_append, listStartsWith] at this ⊢
      simpa using this
  · rw [if_neg he]
    exact dropWhile_slash_head pat.data

/-- C7 counterexample: the pattern `é` contains a character outside
`[A-Za-z0-9] ∪ {-_./+*}` (it is not ASCII at all), yet `_parse_patterns`
accepts it without raising, because Python's `str.isalnum` is
Unicode-aware and `é` is a Unicode letter. -/
theorem pattern_parse_claim_cex :
    _parse_patterns ["é"] = .ok ["é"] ∧
    ('é'.isAlphanum = false ∧ charInStr 'é' "-_./+*" = false) ∧
    pyIsAlnum 'é' = true := by
  exact ⟨rfl, by decide, by decide⟩

/-- C7 amended: parsing raises `InvalidPatternError` iff some (always
non-empty) piece — after splitting on commas and spaces and dropping
empty strings — contains a character that is neither alphanumeric in
Python's Unicode sense (`str.isalnum`; on ASCII exactly `[A-Za-z0-9]`)
nor in `{-_./+*}`; otherwise it returns the pieces normalized by
stripping leading `/` and appending `*` to a piece that still ends in
`/`, and a normalized piece never starts with `/`. -/
theorem pattern_parse_amended (patterns : List String) :
    ((∃ e, _parse_patterns patterns = .error e) ↔
      ∃ p ∈ patternPieces patterns, ∃ ch ∈ p.data,
        ¬(pyIsAlnum ch = true ∨ charInStr ch "-_./+*" = true)) ∧
    ((∀ p ∈ patternPieces patterns, ∀ ch ∈ p.data,
        pyIsAlnum ch = true ∨ charInStr ch "-_./+*" = true) →
      _parse_patterns patterns = .ok ((patternPieces patterns).map _normalize_pattern)) ∧
    (∀ p ∈ patternPieces patterns, p ≠ "") ∧
    (∀ p : String, strStartsWith "/" (_normalize_pattern p) = false) ∧
    (∀ p : String, strEndsWith "/" (pyLstripChar '/' p) = true →
      _normalize_pattern p = pyLstripChar '/' p ++ "*") ∧
    (∀ ch : Char, ch.toNat < 128 → pyIsAlnum ch = ch.isAlphanum) := by
  have hvalid : ∀ p : String, _is_valid_pattern p = true ↔
      ∀ ch ∈ p.data, pyIsAlnum ch = true ∨ charInStr ch "-_./+*" = true := by
    intro p
    simp [_is_valid_pattern, List.all_eq_true]
  refine ⟨?_, ?_, ?_, normalize_no_leading_sep, ?_, pyIsAlnum_ascii⟩
  · constructor
    · rintro ⟨e, he⟩
      simp only [_parse_patterns] at he
      rcases hf : (patternPieces patterns).find? (fun p => !_is_valid_pattern p) with _ | p
      · rw [hf] at he
        exact absurd he (by simp)
      · have hmem := List.mem_of_find?_eq_some hf
        have hinv := List.find?_some hf
        simp only [Bool.not_eq_true'] at hinv
        refine ⟨p, hmem, ?_⟩
        by_contra hall
        push_neg at hall
        have : _is_valid_pattern p = true := (hvalid p).mpr (by
          intro ch hch
          have := hall ch hch
          tauto)
        rw [this] at hinv
        cases hinv
    · rintro ⟨p, hp, ch, hch, hbad⟩
      simp only [_parse_patterns]
      rcases hf : (patternPieces patterns).find? (fun q => !_is_valid_pattern q) with _ | q
      · exfalso
        have hnone := List.find?_eq_none.mp hf p hp
        simp only [Bool.not_eq_true', Bool.not_eq_false] at hnone
        exact hbad (((hvalid p).mp hnone) ch hch)
      · exact ⟨q, rfl⟩
  · intro hall
    simp only [_parse_patterns]
    rcases hf : (patternPieces patterns).find? (fun q => !_is_valid_pattern q) with _ | q
    · rfl
    · exfalso
      have hinv := List.find?_some hf
      have hmem := List.mem_of_find?_eq_some hf
      simp only [Bool.not_eq_true'] at hinv
      rw [(hvalid q).mpr (hall q hmem)] at hinv
      cases hinv
  · intro p hp
    have := List.of_mem_filter hp
    simpa using this
  · intro p hpe
    simp only [_normalize_pattern]
    rw [if_pos hpe]

/-- C7 amended witness: parsing the single input `"src/*.py, docs/"`
splits into two valid pieces and normalizes the trailing slash. -/
theorem pattern_parse_amended_witness :
    _parse_patterns ["src/*.py, docs/"] = .ok ["src/*.py", "docs/*"] := by
  have h := (pattern_parse_amended ["src/*.py, docs/"]).2.1 (by decide)
  rw [h]
  rfl

/-! ## C4: tag resolution over `ls-remote` output -/

/-- A well-formed `ls-remote` line: a non-blank line splits into exactly a
SHA and a ref. -/
def wfLine (ln : String) : Prop :=
  lineBlank ln = false → (pySplitMax1 ln).length = 2

instance (ln : String) : Decidable (wfLine ln) :=
  inferInstanceAs (Decidable (_ → _))

/-- Characterization of `pickCommitShaAux` on well-formed listings: the
first peeled line wins globally; otherwise the accumulator, then the
first ordinary line. -/
lemma pickCommitShaAux_spec (lines : List String) :
    ∀ acc : Option String, (∀ ln ∈ lines, wfLine ln) →
      pickCommitShaAux acc lines =
        match lines.find? (fun ln => !lineBlank ln && linePeeled ln) with
        | some ln => .ok (some (lineSha ln))
        | none => .ok (acc <|> (lines.find? (fun ln => !lineBlank ln)).map lineSha) := by
  induction lines with
  | nil =>
    intro acc _
    cases acc <;> rfl
  | cons ln rest ih =>
    intro acc hwf
    by_cases hb : lineBlank ln = true
    · have hstep : pickCommitShaAux acc (ln :: rest) = pickCommitShaAux acc rest := by
        simp [pickCommitShaAux, hb]
      have e1 : (!lineBlank ln && linePeeled ln) = false := by
        simp [hb]
      have e2 : (!lineBlank ln) = false := by
        simp [hb]
      rw [hstep, ih acc (fun l hl => hwf l (List.mem_cons_of_mem _ hl))]
      simp [List.find?, hb]
    · have hbf : lineBlank ln = false := by
        cases hbv : lineBlank ln
        · rfl
        · exact absurd hbv hb
      have hlen := hwf ln (List.mem_cons_self _ _) hbf
      obtain ⟨sha, ref, hsr⟩ := List.length_eq_two.mp hlen
      have hsha : lineSha ln = sha := by
        simp [lineSha, hsr]
      have href : lineRef ln = ref := by
        simp [lineRef, hsr]
      have hstep : pickCommitShaAux acc (ln :: rest) =
          (if strEndsWith "^\x7b\x7d" ref then .ok (some sha)
           else pickCommitShaAux (acc <|> some sha) rest) := by
        simp [pickCommitShaAux, hbf, hsr]
      by_cases hpe : strEndsWith "^\x7b\x7d" ref = true
      · have epl : linePeeled ln = true := by
          simp [linePeeled, href, hpe]
        rw [hstep, if_pos hpe]
        simp only [List.find?, hbf, epl, Bool.not_false, Bool.true_and, Bool.and_self]
        rw [hsha]
      · have hpef : strEndsWith "^\x7b\x7d" ref = false := by
          cases hv : strEndsWith "^\x7b\x7d" ref
          · rfl
          · exact absurd hv hpe
        have epl : linePeeled ln = false := by
          simp [linePeeled, href, hpef]
        rw [hstep, if_neg hpe,
          ih (acc <|> some sha) (fun l hl => hwf l (List.mem_cons_of_mem _ hl))]
        simp only [List.find?, hbf, epl, Bool.not_false, Bool.true_and, Bool.and_false]
        rcases hfind : rest.find? (fun l => !lineBlank l && linePeeled l) with _ | ln2
        · show _ = Except.ok (acc <|> Option.map lineSha (some ln))
          rw [show Option.map lineSha (some ln) = some sha from by rw [Option.map, hsha]]
          rcases acc with _ | a
          · rfl
          · rfl
        · rfl

/-- C4: on a well-formed `ls-remote` listing, `_pick_commit_sha` returns
the SHA of the first peeled (`^{}`-suffixed) line whenever one exists,
otherwise the SHA of the first non-blank line, and when no such line
exists the surrounding `_resolve_ref_to_sha` raises its ref-not-found
`ValueError`. -/
theorem tag_resolution_first_peeled (lines : List String)
    (hwf : ∀ ln ∈ lines, wfLine ln) :
    (_pick_commit_sha lines =
      match lines.find? (fun ln => !lineBlank ln && linePeeled ln) with
      | some ln => .ok (some (lineSha ln))
      | none =>
        match lines.find? (fun ln => !lineBlank ln) with
        | some ln => .ok (some (lineSha ln))
        | none => .ok none) ∧
    ((∀ ln ∈ lines, lineBlank ln = true) →
      resolveRefOutcome lines = .error .refNotFound) := by
  have hmain := pickCommitShaAux_spec lines none hwf
  constructor
  · rw [_pick_commit_sha, hmain]
    rcases lines.find? (fun ln => !lineBlank ln && linePeeled ln) with _ | ln
    · rcases lines.find? (fun ln => !lineBlank ln) with _ | ln2
      · rfl
      · rfl
    · rfl
  · intro hall
    have h1 : lines.find? (fun ln => !lineBlank ln && linePeeled ln) = none := by
      rw [List.find?_eq_none]
      intro ln hln
      simp [hall ln hln]
    have h2 : lines.find? (fun ln => !lineBlank ln) = none := by
      rw [List.find?_eq_none]
      intro ln hln
      simp [hall ln hln]
    rw [resolveRefOutcome, _pick_commit_sha, hmain, h1, h2]
    rfl

/-- An `ls-remote` listing with an ordinary line first and the peeled
line of an annotated tag second. -/
def tagListingExample : List String :=
  ["aaa refs/tags/v1", "bbb refs/tags/v1^\x7b\x7d"]

/-- C4 witness: on the example listing the peeled SHA wins even though an
ordinary line precedes it. -/
theorem tag_resolution_first_peeled_witness :
    _pick_commit_sha tagListingExample = .ok (some "bbb") := by
  have h := (tag_resolution_first_peeled tagListingExample (by decide)).1
  rw [h]
  rfl

/-! ## C1: budgeted assembly (`format_node_with_context_limit` and
`_optimize_content_with_knapsack`)

The tiktoken counter behind `_count_tokens` is an external binary
resource; the pipeline below takes the counter as an explicit function
argument `tc : String → Nat` (the spec itself requires implementations to
accept an injected counter).  Float arithmetic (`1.5`, `1.3`, `0.8`, …)
only feeds comparisons through the value/token ratio; it is modelled by
exact rationals. -/

/-- The fields of `IngestionQuery` that `createSummaryHeader` reads. -/
structure IngestionQuery where
  user_name : Option String
  repo_name : String
  slug : String
  tag : Option String
  branch : Option String
  commit : Option String
  subpath : String

/-- The summary prefix builder of the output formatter (named with a
`summary_prefix` suffix in the source): repository or directory line, tag
or non-default branch line, commit line, subpath line, joined with
newlines and terminated by one. -/
def createSummaryHeader (q : IngestionQuery) (singleFile : Bool) : String :=
  let parts : List String :=
    (match q.user_name with
     | some u => ["Repository: " ++ u ++ "/" ++ q.repo_name]
     | none => ["Directory: " ++ q.slug]) ++
    (match q.tag with
     | some t => ["Tag: " ++ t]
     | none =>
       match q.branch with
       | some b => if b != "main" && b != "master" then ["Branch: " ++ b] else []
       | none => []) ++
    (match q.commit with
     | some c => ["Commit: " ++ c]
     | none => []) ++
    (if q.subpath != "/" && !singleFile then ["Subpath: " ++ q.subpath] else [])
  String.intercalate "\n" parts ++ "\n"

/-- The colored likelihood-score marker appended to a tree entry. -/
def scoreIndicator (score : Nat) : String :=
  if 80 ≤ score then " [🟢 " ++ toString score ++ "%]"
  else if 60 ≤ score then " [🟡 " ++ toString score ++ "%]"
  else if 40 ≤ score then " [🟠 " ++ toString score ++ "%]"
  else " [🔴 " ++ toString score ++ "%]"

/-- One line of `_create_tree_structure`: prefix, branch glyph, display
name (directories get `/`, symlinks ` -> target name`), and the score
marker when `likelihood_score > 0`. -/
def treeLine (q : IngestionQuery) (prefixStr : String) (isLast : Bool)
    (n : FileSystemNode) : String :=
  let nm := if n.name == "" then q.slug else n.name
  let currentPrefix := if isLast then "└── " else "├── "
  let displayName :=
    match n with
    | .directory .. => nm ++ "/"
    | .symlink _ _ target _ => nm ++ " -> " ++ posixName target
    | .file .. => nm
  let displayName :=
    if n.likelihoodScore > 0 then displayName ++ scoreIndicator n.likelihoodScore
    else displayName
  prefixStr ++ currentPrefix ++ displayName ++ "\n"

mutual

/-- `_create_tree_structure`: the node's own line, then (for a directory
with children) the children rendered with the extended prefix. -/
def _create_tree_structure (q : IngestionQuery) (prefixStr : String)
    (isLast : Bool) : FileSystemNode → String
  | .directory nm p sc cs =>
    treeLine q prefixStr isLast (.directory nm p sc cs) ++
      (if cs.isEmpty then ""
       else treeChildren q (prefixStr ++ (if isLast then "    " else "│   ")) cs)
  | n => treeLine q prefixStr isLast n

/-- The child loop of `_create_tree_structure` (`is_last` iff the child
is the final one). -/
def treeChildren (q : IngestionQuery) (prefixStr : String) :
    List FileSystemNode → String
  | [] => ""
  | c :: cs =>
    _create_tree_structure q prefixStr cs.isEmpty c ++ treeChildren q prefixStr cs

end

/-- The dictionary `_collect_file_items` builds per file (the unused
`size`/`node` backreferences are omitted). -/
structure FileItem where
  path : String
  content : String
  content_string : String
  tokens : Nat
  relevance : Nat
  deriving DecidableEq

mutual

/-- `_collect_file_items`: files contribute one item (with `path` being
`path_str or name` in Python truthiness, the whole `content_string`
block, its token count and the likelihood score); directories recurse
into their children; symlinks contribute nothing. -/
def _collect_file_items (tc : String → Nat) : FileSystemNode → List FileItem
  | .file nm p c sc =>
    let cs := FileSystemNode.contentBlock (.file nm p c sc) c
    [{ path := if p != "" then p else nm, content := c, content_string := cs,
       tokens := tc cs, relevance := sc }]
  | .directory _ _ _ cs => collectItemsList tc cs
  | .symlink .. => []

/-- The traversal of children inside `_collect_file_items`. -/
def collectItemsList (tc : String → Nat) : List FileSystemNode → List FileItem
  | [] => []
  | c :: cs => _collect_file_items tc c ++ collectItemsList tc cs

end

/-- `_get_file_type_multiplier` with its float constants as exact
rationals. -/
def _get_file_type_multiplier (filePath : String) : ℚ :=
  let nameLower := pyLower (posixName filePath)
  let extLower := pyLower (posixSuffix filePath)
  if ["readme", "main", "index", "app", "server", "__init__"].any
      (fun pat => strHasSub pat nameLower) then 2
  else if [".py", ".js", ".ts", ".java", ".cpp", ".c", ".go", ".rs", ".rb"].contains
      extLower then 3 / 2
  else if ([".json", ".yaml", ".yml", ".toml", ".ini", ".env"].contains extLower ||
      ["dockerfile", "makefile"].contains nameLower) then 13 / 10
  else if [".md", ".txt", ".rst"].contains extLower then 11 / 10
  else 1

/-- The code-indicator loop of `_estimate_content_quality` over the first
50 non-empty lines: +1 per line containing a code keyword, +0.5 per line
containing one of the punctuation characters. -/
def countCodeIndicators : List String → ℚ
  | [] => 0
  | line :: rest =>
    let ls := pyStripWS line
    (if ["def ", "class ", "function ", "import ", "from ", "const ", "let ",
        "var "].any (fun ind => strHasSub ind ls) then 1 else 0) +
    (if ['\x7b', '\x7d', '(', ')', ';', ':'].any (fun ch => charInStr ch ls)
      then 1 / 2 else 0) +
    countCodeIndicators rest

/-- `_estimate_content_quality` with float constants as exact rationals
(the dead `elif len(lines) > 2000` branch is kept as in the source). -/
def _estimate_content_quality (content : String) : ℚ :=
  if content == "" ||
      ["[Binary file]", "[Empty file]", "Error reading file"].contains
        (pyStripWS content) then 1 / 10
  else
    let lines := pySplitLines content
    let nonEmptyLines := lines.filter (fun l => pyStripWS l != "")
    if nonEmptyLines.isEmpty then 1 / 5
    else
      let density : ℚ := (nonEmptyLines.length : ℚ) / (max lines.length 1 : ℚ)
      let codeBonus : ℚ := min (countCodeIndicators (nonEmptyLines.take 50) / 10) 1
      let lengthPenalty : ℚ :=
        if lines.length > 1000 then 4 / 5
        else if lines.length > 2000 then 3 / 5
        else 1
      (density + codeBonus) * lengthPenalty

/-- The value assigned to a relevant item:
`relevance * type_multiplier * content_quality`. -/
def itemValue (it : FileItem) : ℚ :=
  (it.relevance : ℚ) * _get_file_type_multiplier it.path *
    _estimate_content_quality it.content

/-- The value/cost quotient `value / max(tokens, 1)`. -/
def itemRatio (it : FileItem) : ℚ :=
  itemValue it / (max it.tokens 1 : ℚ)

/-- The descending order of `sorted(key=ratio, reverse=True)`: an earlier
item stays before a later one iff its ratio is at least as large. -/
def itemGe (a b : FileItem) : Prop :=
  itemRatio b ≤ itemRatio a

instance : DecidableRel itemGe := fun a b =>
  inferInstanceAs (Decidable (itemRatio b ≤ itemRatio a))

/-- Python's stable `sorted(relevant_items, key=ratio, reverse=True)`,
modelled as a stable insertion sort. -/
def sortedByRatio (items : List FileItem) : List FileItem :=
  List.insertionSort itemGe items

/-- The greedy selection loop: walk the sorted items, keep an item iff
adding its token count stays within `max_tokens`, and keep scanning after
a skip. -/
def greedySelect (maxTokens : Int) : List FileItem → Int → List FileItem
  | [], _ => []
  | it :: rest, totalTokens =>
    if totalTokens + (it.tokens : Int) ≤ maxTokens then
      it :: greedySelect maxTokens rest (totalTokens + (it.tokens : Int))
    else greedySelect maxTokens rest totalTokens

/-- The items with positive AI relevance that the knapsack keeps. -/
def relevantItems (tc : String → Nat) (node : FileSystemNode) : List FileItem :=
  (_collect_file_items tc node).filter (fun it => 0 < it.relevance)

/-- `_optimize_content_with_knapsack`: collect items, drop those with
relevance 0 (returning placeholder strings when nothing remains), sort by
value/token ratio descending, greedily select within the budget, and join
the selected `content_string` blocks with newlines. -/
def _optimize_content_with_knapsack (tc : String → Nat) (node : FileSystemNode)
    (maxTokens : Int) : String :=
  let fileItems := _collect_file_items tc node
  if fileItems.isEmpty then "[No files found]"
  else if (relevantItems tc node).isEmpty then
    "[No relevant files found - all files have 0 AI relevance score]"
  else
    let sortedItems := sortedByRatio (relevantItems tc node)
    let selected := greedySelect maxTokens sortedItems 0
    if selected.isEmpty then "[No files fit within token limit]"
    else String.intercalate "\n" (selected.map (fun it => it.content_string))

/-- Whether a node is a single file (`node.type == FileSystemNodeType.FILE`). -/
def FileSystemNode.isFile : FileSystemNode → Bool
  | .file .. => true
  | _ => false

/-- The tree component `"Directory structure:\n" + _create_tree_structure(...)`. -/
def treeOf (q : IngestionQuery) (node : FileSystemNode) : String :=
  "Directory structure:\n" ++ _create_tree_structure q "" true node

/-- `available_tokens = max_tokens - tree_tokens - (summary_tokens + 100)`
as computed by `format_node_with_context_limit`. -/
def availableTokens (tc : String → Nat) (q : IngestionQuery)
    (node : FileSystemNode) (maxTokens : Int) : Int :=
  maxTokens - (tc (treeOf q node) : Int) -
    ((tc (createSummaryHeader q node.isFile) : Int) + 100)

/-- The content component of `format_node_with_context_limit`'s returned
triple (the summary adornments appended after selection do not feed back
into it): the placeholder when the budget is exhausted by summary and
tree, otherwise the knapsack selection at the remaining budget. -/
def format_node_with_context_limit_content (tc : String → Nat)
    (q : IngestionQuery) (node : FileSystemNode) (maxTokens : Int) : String :=
  if availableTokens tc q node maxTokens ≤ 0 then
    "[Content omitted - insufficient token space]"
  else _optimize_content_with_knapsack tc node (availableTokens tc q node maxTokens)

/-- The selection the claim describes, written from the claim's words:
subtract the token count of `summary ++ tree` from the budget, then take
file bodies in traversal order, stopping at the first body that would
exceed the remaining budget. -/
def claimedGreedyStop (maxTokens : Int) : List FileItem → Int → List FileItem
  | [], _ => []
  | it :: rest, totalTokens =>
    if totalTokens + (it.tokens : Int) ≤ maxTokens then
      it :: claimedGreedyStop maxTokens rest (totalTokens + (it.tokens : Int))
    else []

/-- The budgeted content the claim describes (spec-side definition, kept
apart from the code's pipeline for comparison). -/
def claimed_budgeted_content (tc : String → Nat) (q : IngestionQuery)
    (node : FileSystemNode) (maxTokens : Int) : String :=
  let budget := maxTokens -
    (tc (createSummaryHeader q node.isFile ++ treeOf q node) : Int)
  String.intercalate "\n"
    ((claimedGreedyStop budget (_collect_file_items tc node) 0).map
      (fun it => it.content_string))

/-- The block a file item's `content_string` expands to (shared with the
reasoning about emitted blocks). -/
lemma contentBlock_file_eq (nm p c : String) (sc : Nat) :
    FileSystemNode.contentBlock (.file nm p c sc) c =
      SEPARATOR ++ "\n" ++ "FILE: " ++ pyReplaceChar '/' '/' p ++ "\n" ++
        SEPARATOR ++ "\n" ++ c ++ "\n\n" := by
  show String.intercalate "\n"
      [SEPARATOR, "FILE" ++ ": " ++ pyReplaceChar '/' '/' p, SEPARATOR, c] ++ "\n\n" = _
  congr 1

/-- Every collected item's `content_string` is a whole separator-framed
block around exactly the item's full body: bodies are atomic. -/
lemma collect_item_shape (tc : String → Nat) :
    ∀ (node : FileSystemNode), ∀ it ∈ _collect_file_items tc node,
      ∃ p, it.content_string =
        SEPARATOR ++ "\n" ++ "FILE: " ++ pyReplaceChar '/' '/' p ++ "\n" ++
          SEPARATOR ++ "\n" ++ it.content ++ "\n\n" := by
  intro node
  induction node using FileSystemNode.rec
    (motive_2 := fun l => ∀ it ∈ collectItemsList tc l,
      ∃ p, it.content_string =
        SEPARATOR ++ "\n" ++ "FILE: " ++ pyReplaceChar '/' '/' p ++ "\n" ++
          SEPARATOR ++ "\n" ++ it.content ++ "\n\n") with
  | file nm p c sc =>
    intro it hit
    simp only [_collect_file_items, List.mem_singleton] at hit
    subst hit
    exact ⟨p, contentBlock_file_eq nm p c sc⟩
  | directory nm p sc cs ih =>
    intro it hit
    exact ih it hit
  | symlink nm p t sc =>
    intro it hit
    simp [_collect_file_items] at hit
  | nil =>
    rename_i it hit
    simp [collectItemsList] at hit
  | cons c cs ihc ihcs =>
    rename_i it hit
    rcases List.mem_append.mp (by simpa [collectItemsList] using hit) with h | h
    · exact ihc it h
    · exact ihcs it h

/-- The greedy selection is a sublist of its input (order preserved, no
item invented). -/
lemma greedySelect_sublist (m : Int) : ∀ (l : List FileItem) (t : Int),
    (greedySelect m l t).Sublist l := by
  intro l
  induction l with
  | nil =>
    intro t
    simp [greedySelect]
  | cons it rest ih =>
    intro t
    simp only [greedySelect]
    split
    · exact List.Sublist.cons₂ _ (ih _)
    · exact List.Sublist.cons _ (ih _)

/-- The running total plus the selected token counts never exceeds the
budget. -/
lemma greedySelect_sum (m : Int) : ∀ (l : List FileItem) (t : Int), t ≤ m →
    t + ((greedySelect m l t).map (fun it => (it.tokens : Int))).sum ≤ m := by
  intro l
  induction l with
  | nil =>
    intro t ht
    simpa [greedySelect] using ht
  | cons it rest ih =>
    intro t ht
    simp only [greedySelect]
    split
    · rename_i hcond
      have hrec := ih (t + (it.tokens : Int)) hcond
      simp only [List.map_cons, List.sum_cons]
      omega
    · exact ih t ht

/-- C1 amended: when the budget left after subtracting the tree tokens
and the summary tokens plus a 100-token buffer is positive, the content
is produced by the knapsack: among the files with positive AI relevance
score, sorted by value/token ratio descending, each file is kept iff its
token count still fits the remaining budget (files that do not fit are
skipped and scanning continues); every emitted block is the whole,
untruncated `content_string` of a collected file, and the sum of the
selected token counts never exceeds the remaining budget.  Files with
relevance 0 are never emitted, and placeholder strings replace the
content when nothing is collected, nothing is relevant, or nothing
fits. -/
theorem budgeted_assembly_amended (tc : String → Nat) (q : IngestionQuery)
    (node : FileSystemNode) (maxTokens : Int)
    (h : 0 < availableTokens tc q node maxTokens) :
    format_node_with_context_limit_content tc q node maxTokens =
      _optimize_content_with_knapsack tc node (availableTokens tc q node maxTokens) ∧
    (greedySelect (availableTokens tc q node maxTokens)
        (sortedByRatio (relevantItems tc node)) 0).Sublist
      (sortedByRatio (relevantItems tc node)) ∧
    (∀ it ∈ greedySelect (availableTokens tc q node maxTokens)
        (sortedByRatio (relevantItems tc node)) 0,
      it ∈ _collect_file_items tc node ∧ 0 < it.relevance) ∧
    (∀ it ∈ greedySelect (availableTokens tc q node maxTokens)
        (sortedByRatio (relevantItems tc node)) 0,
      ∃ p, it.content_string =
        SEPARATOR ++ "\n" ++ "FILE: " ++ pyReplaceChar '/' '/' p ++ "\n" ++
          SEPARATOR ++ "\n" ++ it.content ++ "\n\n") ∧
    ((greedySelect (availableTokens tc q node maxTokens)
        (sortedByRatio (relevantItems tc node)) 0).map
          (fun it => (it.tokens : Int))).sum ≤
      availableTokens tc q node maxTokens ∧
    _optimize_content_with_knapsack tc node (availableTokens tc q node maxTokens) =
      (if (_collect_file_items tc node).isEmpty then "[No files found]"
       else if (relevantItems tc node).isEmpty then
         "[No relevant files found - all files have 0 AI relevance score]"
       else if (greedySelect (availableTokens tc q node maxTokens)
           (sortedByRatio (relevantItems tc node)) 0).isEmpty then
         "[No files fit within token limit]"
       else String.intercalate "\n"
         ((greedySelect (availableTokens tc q node maxTokens)
             (sortedByRatio (relevantItems tc node)) 0).map
           (fun it => it.content_string))) := by
  have hmemrel : ∀ it ∈ greedySelect (availableTokens tc q node maxTokens)
      (sortedByRatio (relevantItems tc node)) 0,
      it ∈ _collect_file_items tc node ∧ 0 < it.relevance := by
    intro it hit
    have h1 : it ∈ sortedByRatio (relevantItems tc node) :=
      (greedySelect_sublist _ _ _).subset hit
    have h2 : it ∈ relevantItems tc node :=
      (List.perm_insertionSort itemGe (relevantItems tc node)).subset h1
    have h3 := List.mem_filter.mp h2
    exact ⟨h3.1, by simpa using h3.2⟩
  refine ⟨?_, greedySelect_sublist _ _ _, hmemrel, ?_, ?_, rfl⟩
  · simp only [format_node_with_context_limit_content]
    rw [if_neg (by omega)]
  · intro it hit
    exact collect_item_shape tc node it (hmemrel it hit).1
  · have hsum := greedySelect_sum (availableTokens tc q node maxTokens)
      (sortedByRatio (relevantItems tc node)) 0 (le_of_lt h)
    simpa using hsum

/-- The query of the concrete examples below. -/
def qToy : IngestionQuery :=
  { user_name := some "acme", repo_name := "toy", slug := "acme-toy",
    tag := none, branch := none, commit := none, subpath := "/" }

/-- A directory holding one file whose AI likelihood score is 0. -/
def dirNodeZero : FileSystemNode :=
  .directory "toy" "toy" 0 [.file "a.py" "a.py" "print(1)" 0]

/-- The same directory with the file carrying likelihood score 50. -/
def dirNodeRel : FileSystemNode :=
  .directory "toy" "toy" 0 [.file "a.py" "a.py" "print(1)" 50]

set_option maxRecDepth 100000 in
/-- C1 counterexample: with an ample budget of 10000 tokens, the claim
demands the single file body be included (the claimed greedy content does
contain it), but the code's budgeted assembly drops every file whose AI
relevance score is 0 and emits only a placeholder without any file
body. -/
theorem budgeted_assembly_claim_cex :
    format_node_with_context_limit_content String.length qToy dirNodeZero 10000 =
      "[No relevant files found - all files have 0 AI relevance score]" ∧
    claimed_budgeted_content String.length qToy dirNodeZero 10000 =
      SEPARATOR ++ "\nFILE: a.py\n" ++ SEPARATOR ++ "\nprint(1)\n\n" ∧
    strHasSub "print(1)"
      (format_node_with_context_limit_content String.length qToy dirNodeZero 10000)
      = false ∧
    strHasSub "print(1)"
      (claimed_budgeted_content String.length qToy dirNodeZero 10000) = true := by
  refine ⟨rfl, by decide, by decide, by decide⟩

/-- C1 amended witness: the amended theorem applied to the score-50
example at budget 10000. -/
theorem budgeted_assembly_amended_witness :
    format_node_with_context_limit_content String.length qToy dirNodeRel 10000 =
      _optimize_content_with_knapsack String.length dirNodeRel
        (availableTokens String.length qToy dirNodeRel 10000) ∧
    ((greedySelect (availableTokens String.length qToy dirNodeRel 10000)
        (sortedByRatio (relevantItems String.length dirNodeRel)) 0).map
          (fun it => (it.tokens : Int))).sum ≤
      availableTokens String.length qToy dirNodeRel 10000 := by
  have h := budgeted_assembly_amended String.length qToy dirNodeRel 10000 (by decide)
  exact ⟨h.1, h.2.2.2.2.1⟩
